import Mathlib

/-!
Verification of the tile-quadtree engine of `generate-mercator-tiles-from-srtm`.

Shallow embedding of the Python sources under `generate_tiles/`:
  * `mercator.py`        — forward/inverse spherical Mercator projection (over ℝ);
  * `webmercatorcell.py` — the `WebMercatorCell` quadtree, conditional recursive
    subdivision, flattening, and the full web-mercator grid;
  * `generate_list_of_empties.py` — construction of the set of empty tiles:
    leaf-level classification followed by the bottom-up sweep;
  * `generate.py`        — `_get_heightdata` (thumbnail lookup with horizontal
    wrap-around and the zero-grid default) and
    `_generate_merged_cell_from_subcells` (the padded (256+16)×(256+16) merge
    buffer);
  * `imagetools.py`      — the `to_hillshade` tone transform.

Machine floats are modelled as exact numbers (ℝ for the projection math, ℚ for
the latitude comparisons, an arbitrary type with a zero for height samples);
external collaborators (the polygon-intersection primitive of `turfpy`, the
latitudes produced by `invert_mercator` inside the emptiness construction, the
`earthpy` hillshade kernel, the thumbnail files on disk) are abstracted as
explicit oracle parameters.
-/

namespace GenTiles

/-! ### Tile addresses (the `(level, i, j)` key of `WebMercatorCell`) -/

/-- A slippy-tile address `(level, i, j)`.  `WebMercatorCell.__hash__` hashes
exactly this triple, and the emptiness file stores exactly these triples. -/
structure Addr where
  level : Nat
  i : Nat
  j : Nat
deriving DecidableEq

/-- The four child addresses of a cell, in the `cell_0, cell_1, cell_2, cell_3`
order of `WebMercatorCell.conditional_recursive_subdivide`:
`(2i, 2j), (2i+1, 2j), (2i, 2j+1), (2i+1, 2j+1)` at `level + 1`. -/
def childrenOf (a : Addr) : List Addr :=
  [⟨a.level + 1, 2 * a.i, 2 * a.j⟩,
   ⟨a.level + 1, 2 * a.i + 1, 2 * a.j⟩,
   ⟨a.level + 1, 2 * a.i, 2 * a.j + 1⟩,
   ⟨a.level + 1, 2 * a.i + 1, 2 * a.j + 1⟩]

/-- All tile addresses of one zoom level: `i, j ∈ [0, 2^level)`.  In the source
these are the cells of the fully subdivided grid filtered to one level. -/
def tilesOfLevel (L : Nat) : List Addr :=
  (List.range (2 ^ L)).flatMap fun i => (List.range (2 ^ L)).map fun j => ⟨L, i, j⟩

theorem mem_tilesOfLevel {L : Nat} {a : Addr} :
    a ∈ tilesOfLevel L ↔ a.level = L ∧ a.i < 2 ^ L ∧ a.j < 2 ^ L := by
  cases a with
  | mk l i j =>
    simp only [tilesOfLevel, List.mem_flatMap, List.mem_map, List.mem_range]
    constructor
    · rintro ⟨i', hi', j', hj', h⟩
      cases h
      exact ⟨rfl, hi', hj'⟩
    · rintro ⟨rfl, hi, hj⟩
      exact ⟨i, hi, j, hj, rfl⟩

/-! ### Emptiness construction (`generate_list_of_empties.py`)

`generate_list_of_empty_tiles` first classifies every leaf cell (level
`max_level`) as empty or not, then sweeps the levels
`range(max_level - 1, min_level - 1, -1)` bottom-up, adding a cell whenever all
four of its children are already in the set.  The leaf classification is
parameterised here as `cls : Addr → Bool` (its concrete form, the polar
short-circuit plus the clipped-polygon intersection test, is
`leafEmpty` below). -/

/-- The list of swept levels `max_level - 1, max_level - 2, ..., min_level`,
mirroring Python's `range(max_level - 1, min_level - 1, -1)`. -/
def levelsDesc (min_level : Nat) : Nat → List Nat
  | 0 => []
  | m + 1 => if min_level ≤ m then m :: levelsDesc min_level m else []

/-- One pass of the upward sweep at level `L`: every cell of level `L` whose
four tree children are already members is appended to the set (the set is
modelled as a list with membership). -/
def sweepStep (acc : List Addr) (L : Nat) : List Addr :=
  acc ++ (tilesOfLevel L).filter fun a =>
    (childrenOf a).all fun ch => decide (ch ∈ acc)

/-- Model of `generate_list_of_empty_tiles`, with the leaf-level emptiness
classification abstracted as `cls`.  The partition-cell plumbing of the source
(which only exists to pre-clip the polygon set) is folded into `cls`; this is
extensionally the classification computed per leaf when
`min_level ≤ max_level`. -/
def generate_list_of_empty_tiles (cls : Addr → Bool) (min_level max_level : Nat) :
    List Addr :=
  (levelsDesc min_level max_level).foldl sweepStep ((tilesOfLevel max_level).filter cls)

/-- Leaf-level classification of one cell at `max_level`, mirroring the body of
the per-cell loop:
```
# lat0 > lat1
if lat0 < -60:   does_intersect = False
elif lat1 > 60:  does_intersect = False
else:            does_intersect = any(map(lambda f: intersect([f, polygon]) is not None, ...))
if not does_intersect: empties.add(cell)
```
`latTop`/`latBot` give the latitudes `lat0` (top edge) and `lat1` (bottom edge)
of the cell — in the source these are `invert_mercator` applied to the cell's
bounding box; machine floats are rationals, so the oracles are ℚ-valued.
`polyTest` abstracts the clipped-polygon intersection `any(...)`. -/
def leafEmpty (latTop latBot : Addr → ℚ) (polyTest : Addr → Bool) (a : Addr) : Bool :=
  if latTop a < -60 then true
  else if 60 < latBot a then true
  else !(polyTest a)

/-! Feature loading (`generate_list_of_empty_tiles`, lines 34–37): the GeoJSON
features are filtered by `'Polygon' in feature['geometry']['type']` — a Python
substring test on the geometry-type string — and the construction simply
proceeds with whatever features survive the filter. -/

/-- Python's substring test `needle in hay` on strings (as character lists). -/
def containsSub (hay needle : List Char) : Bool :=
  (List.range (hay.length + 1)).any fun k => needle.isPrefixOf (hay.drop k)

/-- Test `'Polygon' in feature['geometry']['type']`. -/
def geomTypeIsPolygonal (t : List Char) : Bool :=
  containsSub t "Polygon".toList

/-- Model of `generate_list_of_empty_tiles` including the feature-loading step: each
feature is represented by its geometry-type string; the geometric content and
the per-partition clipping are abstracted into the intersection oracle
`intersects`.  Mirrors:
```
polygons = FeatureCollection(list(filter(lambda feature: 'Polygon' in feature['geometry']['type'], j['features'])))
```
followed by the classification and sweep. -/
def generate_list_from_features (features : List (List Char))
    (latTop latBot : Addr → ℚ) (intersects : List Char → Addr → Bool)
    (min_level max_level : Nat) : List Addr :=
  let polygons := features.filter geomTypeIsPolygonal
  generate_list_of_empty_tiles
    (leafEmpty latTop latBot fun a => polygons.any fun f => intersects f a)
    min_level max_level

/-! ### Lemmas about the sweep -/

theorem sweepStep_subset {acc : List Addr} {L : Nat} : acc ⊆ sweepStep acc L :=
  List.subset_append_left _ _

theorem foldl_sweepStep_subset (ls : List Nat) :
    ∀ acc : List Addr, acc ⊆ ls.foldl sweepStep acc := by
  induction ls with
  | nil => intro acc; exact fun _ h => h
  | cons l ls ih =>
    intro acc
    exact fun a ha => ih (sweepStep acc l) (sweepStep_subset ha)

theorem mem_sweepStep {acc : List Addr} {L : Nat} {a : Addr}
    (h : a ∈ sweepStep acc L) :
    a ∈ acc ∨ (a.level = L ∧ (∀ ch ∈ childrenOf a, ch ∈ acc)) := by
  rcases List.mem_append.mp h with h' | h'
  · exact Or.inl h'
  · right
    rcases List.mem_filter.mp h' with ⟨hmem, hcond⟩
    refine ⟨(mem_tilesOfLevel.mp hmem).1, ?_⟩
    intro ch hch
    have := List.all_eq_true.mp hcond ch hch
    exact of_decide_eq_true this

/-- Every member of the fold is either already in the accumulator or has one of
the swept levels. -/
theorem level_mem_of_mem_foldl (ls : List Nat) :
    ∀ (acc : List Addr) (a : Addr), a ∈ ls.foldl sweepStep acc →
      a ∈ acc ∨ a.level ∈ ls := by
  induction ls with
  | nil => intro acc a h; exact Or.inl h
  | cons l ls ih =>
    intro acc a h
    rcases ih (sweepStep acc l) a h with h' | h'
    · rcases mem_sweepStep h' with h'' | ⟨hl, _⟩
      · exact Or.inl h''
      · exact Or.inr (by simp [hl])
    · exact Or.inr (List.mem_cons_of_mem _ h')

/-- The sweep processes strictly decreasing levels. -/
def strictDesc : List Nat → Prop
  | [] => True
  | l :: ls => (∀ l' ∈ ls, l' < l) ∧ strictDesc ls

theorem mem_levelsDesc_lt {min_level m l : Nat} (h : l ∈ levelsDesc min_level m) :
    l < m ∧ min_level ≤ l := by
  induction m with
  | zero => simp [levelsDesc] at h
  | succ m ih =>
    simp only [levelsDesc] at h
    by_cases hm : min_level ≤ m
    · rw [if_pos hm] at h
      rcases List.mem_cons.mp h with rfl | h'
      · exact ⟨Nat.lt_succ_self _, hm⟩
      · have := ih h'
        exact ⟨Nat.lt_succ_of_lt this.1, this.2⟩
    · rw [if_neg hm] at h
      simp at h

theorem strictDesc_levelsDesc (min_level : Nat) :
    ∀ m, strictDesc (levelsDesc min_level m) := by
  intro m
  induction m with
  | zero => trivial
  | succ m ih =>
    simp only [levelsDesc]
    by_cases hm : min_level ≤ m
    · rw [if_pos hm]
      exact ⟨fun l' hl' => (mem_levelsDesc_lt hl').1, ih⟩
    · rw [if_neg hm]; trivial

theorem mem_levelsDesc {min_level m l : Nat} (h1 : min_level ≤ l) (h2 : l < m) :
    l ∈ levelsDesc min_level m := by
  induction m with
  | zero => omega
  | succ m ih =>
    simp only [levelsDesc]
    rw [if_pos (by omega)]
    rcases Nat.lt_succ_iff_lt_or_eq.mp h2 with h' | rfl
    · exact List.mem_cons_of_mem _ (ih h')
    · exact List.mem_cons_self _ _

theorem childrenOf_level {a ch : Addr} (h : ch ∈ childrenOf a) :
    ch.level = a.level + 1 := by
  simp only [childrenOf, List.mem_cons, List.mem_singleton] at h
  rcases h with rfl | rfl | rfl | h
  · rfl
  · rfl
  · rfl
  · simp at h; subst h; rfl

/-- Core upward-closure lemma: if the swept levels are strictly decreasing and
the level of `a` is among them, and all four children of `a` end up in the
fold, then `a` ends up in the fold. -/
theorem upward_closed_foldl :
    ∀ ls : List Nat, strictDesc ls → ∀ (acc : List Addr) (a : Addr),
      a.level ∈ ls → a.i < 2 ^ a.level → a.j < 2 ^ a.level →
      (∀ ch ∈ childrenOf a, ch ∈ ls.foldl sweepStep acc) →
      a ∈ ls.foldl sweepStep acc := by
  intro ls
  induction ls with
  | nil => intro _ acc a h; simp at h
  | cons l ls ih =>
    intro hdesc acc a hl hi hj hch
    rcases List.mem_cons.mp hl with hl' | hl'
    · -- a.level = l: the children live at level l + 1, above every later sweep,
      -- so they are already in `sweepStep acc l`; membership in the filter part
      -- is impossible (wrong level), hence they are in `acc`.
      have hch_acc : ∀ ch ∈ childrenOf a, ch ∈ acc := by
        intro ch hchm
        have hmem := hch ch hchm
        rcases level_mem_of_mem_foldl ls (sweepStep acc l) ch hmem with h' | h'
        · rcases mem_sweepStep h' with h'' | ⟨hlev, _⟩
          · exact h''
          · exfalso
            have := childrenOf_level hchm
            omega
        · exfalso
          have h1 := hdesc.1 _ h'
          have := childrenOf_level hchm
          omega
      have ha : a ∈ sweepStep acc l := by
        apply List.mem_append_right
        apply List.mem_filter.mpr
        refine ⟨mem_tilesOfLevel.mpr ⟨hl', by rw [hl'] at hi; exact hi, by rw [hl'] at hj; exact hj⟩, ?_⟩
        apply List.all_eq_true.mpr
        intro ch hchm
        exact decide_eq_true (hch_acc ch hchm)
      exact foldl_sweepStep_subset ls (sweepStep acc l) ha
    · exact ih hdesc.2 (sweepStep acc l) a hl' hi hj hch

/-- Claim C1.  Emptiness upward closure: in every emptiness set built by
`generate_list_of_empty_tiles` over levels `min_level..max_level`, whenever all
four child addresses of an in-range address `a` with
`min_level ≤ a.level < max_level` are members, `a` itself is a member — the
upward sweep establishes this at every non-leaf level down to the minimum. -/
theorem emptiness_upward_closure (cls : Addr → Bool) (min_level max_level : Nat)
    (a : Addr) (hmin : min_level ≤ a.level) (hmax : a.level < max_level)
    (hi : a.i < 2 ^ a.level) (hj : a.j < 2 ^ a.level)
    (hch : ∀ ch ∈ childrenOf a, ch ∈ generate_list_of_empty_tiles cls min_level max_level) :
    a ∈ generate_list_of_empty_tiles cls min_level max_level := by
  apply upward_closed_foldl _ (strictDesc_levelsDesc min_level max_level) _ a
    (mem_levelsDesc hmin hmax) hi hj hch

theorem emptiness_upward_closure_witness :
    ⟨0, 0, 0⟩ ∈ generate_list_of_empty_tiles (fun _ => true) 0 1 :=
  emptiness_upward_closure (fun _ => true) 0 1 ⟨0, 0, 0⟩ (by decide) (by decide)
    (by decide) (by decide) (by decide)

/-- Claim C6.  Polar short-circuit: a leaf-level tile whose latitude band lies
entirely above +60° (`lat1 > 60`, bottom edge above 60) or entirely below −60°
(`lat0 < -60`, top edge below −60) is classified empty — it lands in the built
set for *every* polygon-intersection oracle `polyTest`, i.e. without any
landmass-polygon intersection test. -/
theorem polar_short_circuit (latTop latBot : Addr → ℚ) (min_level max_level : Nat)
    (a : Addr) (hlev : a.level = max_level) (hi : a.i < 2 ^ max_level)
    (hj : a.j < 2 ^ max_level) (hpolar : latTop a < -60 ∨ 60 < latBot a) :
    ∀ polyTest : Addr → Bool,
      a ∈ generate_list_of_empty_tiles (leafEmpty latTop latBot polyTest)
            min_level max_level := by
  intro polyTest
  have hcls : leafEmpty latTop latBot polyTest a = true := by
    unfold leafEmpty
    rcases hpolar with h | h
    · rw [if_pos h]
    · by_cases h' : latTop a < -60
      · rw [if_pos h']
      · rw [if_neg h', if_pos h]
  apply foldl_sweepStep_subset
  exact List.mem_filter.mpr ⟨mem_tilesOfLevel.mpr ⟨hlev, hlev ▸ hi, hlev ▸ hj⟩, hcls⟩

theorem polar_short_circuit_witness :
    ⟨1, 0, 0⟩ ∈ generate_list_of_empty_tiles
      (leafEmpty (fun _ => -61) (fun _ => -62) fun _ => false) 0 1 :=
  polar_short_circuit (fun _ => -61) (fun _ => -62) 0 1 ⟨1, 0, 0⟩ rfl (by decide)
    (by decide) (Or.inl (by norm_num)) (fun _ => false)

/-- Claim C7, counterexample.  The claim says that a landmass input containing a
feature whose geometry is not a Polygon/MultiPolygon makes the construction
abort.  In the code the offending feature is silently dropped by the
`'Polygon' in feature['geometry']['type']` filter: on the concrete malformed
input consisting of a single `Point` feature, the construction produces exactly
the classification it produces on the empty feature collection — a normal
result, not an abort. -/
theorem malformed_feature_not_fatal_counterexample :
    geomTypeIsPolygonal "Point".toList = false ∧
    generate_list_from_features ["Point".toList] (fun _ => 0) (fun _ => 0)
        (fun _ _ => true) 0 1 =
      generate_list_from_features [] (fun _ => 0) (fun _ => 0)
        (fun _ _ => true) 0 1 := by
  constructor
  · decide
  · decide

/-- Claim C7, amended.  A feature whose geometry-type string does not contain
`'Polygon'` is silently filtered out of the landmass collection; the
construction proceeds and yields exactly the classification obtained without
that feature (it never aborts). -/
theorem malformed_feature_filtered (t : List Char) (rest : List (List Char))
    (latTop latBot : Addr → ℚ) (intersects : List Char → Addr → Bool)
    (min_level max_level : Nat) (h : geomTypeIsPolygonal t = false) :
    generate_list_from_features (t :: rest) latTop latBot intersects
        min_level max_level =
      generate_list_from_features rest latTop latBot intersects
        min_level max_level := by
  unfold generate_list_from_features
  rw [List.filter_cons_of_neg (by simp [h])]

theorem malformed_feature_filtered_witness :
    geomTypeIsPolygonal "Point".toList = false ∧
    generate_list_from_features ["Point".toList] (fun _ => 0) (fun _ => 0)
        (fun _ _ => false) 0 2 =
      generate_list_from_features [] (fun _ => 0) (fun _ => 0)
        (fun _ _ => false) 0 2 :=
  ⟨by decide,
   malformed_feature_filtered "Point".toList [] (fun _ => 0) (fun _ => 0)
     (fun _ _ => false) 0 2 (by decide)⟩

/-! ### Mercator projection (`mercator.py`)

```
R = 6371
def proj_mercator(lat, lng):
    x = R * lng * math.pi / 180
    y = R * math.log(math.tan(math.pi/4 + lat / 2 * math.pi / 180))
    return x, y
def invert_mercator(x, y):
    lng = (x * 180 / math.pi) / R
    res_log = y / R
    res_tan = math.exp(res_log)
    res_inner = math.atan(res_tan)
    lat = 360 * (res_inner - math.pi/4) / math.pi
    return lat, lng
```
modelled exactly over ℝ. -/

/-- The sphere radius constant `R = 6371`. -/
noncomputable def mercR : ℝ := 6371

/-- Forward projection `proj_mercator(lat, lng) -> (x, y)`. -/
noncomputable def proj_mercator (lat lng : ℝ) : ℝ × ℝ :=
  (mercR * lng * Real.pi / 180,
   mercR * Real.log (Real.tan (Real.pi / 4 + lat / 2 * Real.pi / 180)))

/-- Inverse projection `invert_mercator(x, y) -> (lat, lng)`. -/
noncomputable def invert_mercator (x y : ℝ) : ℝ × ℝ :=
  (360 * (Real.arctan (Real.exp (y / mercR)) - Real.pi / 4) / Real.pi,
   (x * 180 / Real.pi) / mercR)

theorem mercR_pos : (0 : ℝ) < mercR := by norm_num [mercR]

/-- Claim C4.  Mercator round-trip: for `|lat| < 90`,
`invert_mercator (proj_mercator lat lng)` reconstructs `(lat, lng)` exactly
over the reals (both functions are pure functions of their arguments). -/
theorem mercator_roundtrip (lat lng : ℝ) (h : |lat| < 90) :
    invert_mercator (proj_mercator lat lng).1 (proj_mercator lat lng).2 =
      (lat, lng) := by
  have hpi := Real.pi_pos
  have hR := mercR_pos
  have hlat : -90 < lat ∧ lat < 90 := abs_lt.mp h
  set θ : ℝ := Real.pi / 4 + lat / 2 * Real.pi / 180 with hθ
  have hθ0 : 0 < θ := by
    rw [hθ]; nlinarith [hlat.1, hpi]
  have hθ1 : θ < Real.pi / 2 := by
    rw [hθ]; nlinarith [hlat.2, hpi]
  have htan : 0 < Real.tan θ := Real.tan_pos_of_pos_of_lt_pi_div_two hθ0 hθ1
  unfold invert_mercator proj_mercator
  refine Prod.ext ?_ ?_
  · -- latitude component
    show 360 * (Real.arctan (Real.exp (mercR * Real.log (Real.tan θ) / mercR)) -
        Real.pi / 4) / Real.pi = lat
    rw [mul_div_assoc, mul_div_cancel_left₀ _ (ne_of_gt hR), Real.exp_log htan,
      Real.arctan_tan (by nlinarith [hlat.1, hpi]) hθ1]
    rw [hθ]
    field_simp
    ring
  · -- longitude component
    show (mercR * lng * Real.pi / 180 * 180 / Real.pi) / mercR = lng
    field_simp

theorem mercator_roundtrip_witness :
    |(0 : ℝ)| < 90 ∧
    invert_mercator (proj_mercator 0 0).1 (proj_mercator 0 0).2 = (0, 0) :=
  ⟨by norm_num, mercator_roundtrip 0 0 (by norm_num)⟩

/-- The other half of the inversion, used for the grid extents: projecting the
latitude that `invert_mercator` assigns to Mercator ordinate `y` gives back
`y` exactly (for every `y`). -/
theorem proj_invert_y (x y lng : ℝ) :
    (proj_mercator ((invert_mercator x y).1) lng).2 = y := by
  have hpi := Real.pi_ne_zero
  have hR := ne_of_gt mercR_pos
  unfold proj_mercator invert_mercator
  have harg : Real.pi / 4 +
      360 * (Real.arctan (Real.exp (y / mercR)) - Real.pi / 4) / Real.pi / 2 *
        Real.pi / 180 = Real.arctan (Real.exp (y / mercR)) := by
    field_simp
    ring
  rw [harg, Real.tan_arctan, Real.log_exp]
  field_simp

/-! ### The quadtree (`webmercatorcell.py`)

`WebMercatorCell` is a dataclass holding `(level, i, j)`, the Mercator-space
bounding box `(x0, x1, y0, y1)` (top-down convention `y1 < y0`), and four
optional child references `cell_0..cell_3`.  The coordinate type is kept
generic (`α`); machine floats are instantiated as ℝ. -/

inductive Cell (α : Type) : Type where
  | mk (level i j : Nat) (x0 x1 y0 y1 : α)
       (cell_0 cell_1 cell_2 cell_3 : Option (Cell α))

variable {α : Type}

def Cell.level : Cell α → Nat | .mk l _ _ _ _ _ _ _ _ _ _ => l
def Cell.i : Cell α → Nat | .mk _ i _ _ _ _ _ _ _ _ _ => i
def Cell.j : Cell α → Nat | .mk _ _ j _ _ _ _ _ _ _ _ => j
def Cell.x0 : Cell α → α | .mk _ _ _ v _ _ _ _ _ _ _ => v
def Cell.x1 : Cell α → α | .mk _ _ _ _ v _ _ _ _ _ _ => v
def Cell.y0 : Cell α → α | .mk _ _ _ _ _ v _ _ _ _ _ => v
def Cell.y1 : Cell α → α | .mk _ _ _ _ _ _ v _ _ _ _ => v
def Cell.cell_0 : Cell α → Option (Cell α) | .mk _ _ _ _ _ _ _ c _ _ _ => c
def Cell.cell_1 : Cell α → Option (Cell α) | .mk _ _ _ _ _ _ _ _ c _ _ => c
def Cell.cell_2 : Cell α → Option (Cell α) | .mk _ _ _ _ _ _ _ _ _ c _ => c
def Cell.cell_3 : Cell α → Option (Cell α) | .mk _ _ _ _ _ _ _ _ _ _ c => c

@[simp] theorem Cell.level_mk (l i j : Nat) (a b c d : α) (s0 s1 s2 s3) :
    (Cell.mk l i j a b c d s0 s1 s2 s3).level = l := rfl
@[simp] theorem Cell.i_mk (l i j : Nat) (a b c d : α) (s0 s1 s2 s3) :
    (Cell.mk l i j a b c d s0 s1 s2 s3).i = i := rfl
@[simp] theorem Cell.j_mk (l i j : Nat) (a b c d : α) (s0 s1 s2 s3) :
    (Cell.mk l i j a b c d s0 s1 s2 s3).j = j := rfl
@[simp] theorem Cell.x0_mk (l i j : Nat) (a b c d : α) (s0 s1 s2 s3) :
    (Cell.mk l i j a b c d s0 s1 s2 s3).x0 = a := rfl
@[simp] theorem Cell.x1_mk (l i j : Nat) (a b c d : α) (s0 s1 s2 s3) :
    (Cell.mk l i j a b c d s0 s1 s2 s3).x1 = b := rfl
@[simp] theorem Cell.y0_mk (l i j : Nat) (a b c d : α) (s0 s1 s2 s3) :
    (Cell.mk l i j a b c d s0 s1 s2 s3).y0 = c := rfl
@[simp] theorem Cell.y1_mk (l i j : Nat) (a b c d : α) (s0 s1 s2 s3) :
    (Cell.mk l i j a b c d s0 s1 s2 s3).y1 = d := rfl
@[simp] theorem Cell.cell_0_mk (l i j : Nat) (a b c d : α) (s0 s1 s2 s3) :
    (Cell.mk l i j a b c d s0 s1 s2 s3).cell_0 = s0 := rfl
@[simp] theorem Cell.cell_1_mk (l i j : Nat) (a b c d : α) (s0 s1 s2 s3) :
    (Cell.mk l i j a b c d s0 s1 s2 s3).cell_1 = s1 := rfl
@[simp] theorem Cell.cell_2_mk (l i j : Nat) (a b c d : α) (s0 s1 s2 s3) :
    (Cell.mk l i j a b c d s0 s1 s2 s3).cell_2 = s2 := rfl
@[simp] theorem Cell.cell_3_mk (l i j : Nat) (a b c d : α) (s0 s1 s2 s3) :
    (Cell.mk l i j a b c d s0 s1 s2 s3).cell_3 = s3 := rfl

/-! The four quadrant candidates built inside
`conditional_recursive_subdivide`, in the order of its loop tuple list:
```
('cell_0', 2*i,   2*j,   x0,   xmid, y0,   ymid),
('cell_1', 2*i+1, 2*j,   xmid, x1,   y0,   ymid),
('cell_2', 2*i,   2*j+1, x0,   xmid, ymid, y1),
('cell_3', 2*i+1, 2*j+1, xmid, x1,   ymid, y1),
```
with `xmid = (x0 + x1) / 2`, `ymid = (y0 + y1) / 2`. -/

def Cell.cand0 [Add α] [Div α] [OfNat α 2] (c : Cell α) : Cell α :=
  Cell.mk (c.level + 1) (2 * c.i) (2 * c.j)
    c.x0 ((c.x0 + c.x1) / 2) c.y0 ((c.y0 + c.y1) / 2) none none none none

def Cell.cand1 [Add α] [Div α] [OfNat α 2] (c : Cell α) : Cell α :=
  Cell.mk (c.level + 1) (2 * c.i + 1) (2 * c.j)
    ((c.x0 + c.x1) / 2) c.x1 c.y0 ((c.y0 + c.y1) / 2) none none none none

def Cell.cand2 [Add α] [Div α] [OfNat α 2] (c : Cell α) : Cell α :=
  Cell.mk (c.level + 1) (2 * c.i) (2 * c.j + 1)
    c.x0 ((c.x0 + c.x1) / 2) ((c.y0 + c.y1) / 2) c.y1 none none none none

def Cell.cand3 [Add α] [Div α] [OfNat α 2] (c : Cell α) : Cell α :=
  Cell.mk (c.level + 1) (2 * c.i + 1) (2 * c.j + 1)
    ((c.x0 + c.x1) / 2) c.x1 ((c.y0 + c.y1) / 2) c.y1 none none none none

/-- The recursion of `conditional_recursive_subdivide`, fuelled.  The source
recursion descends into children of level `self.level + 1`, so
`max_depth - level` steps of fuel reproduce it exactly (every attached child
raises the level by one); each call re-checks the `self.level >= max_depth`
guard exactly as the source does.  A slot is reassigned — to the (recursively
subdivided) candidate `cell = getattr(...) or WebMercatorCell(...)` — only when
`condition(cell)` holds; otherwise the slot keeps its previous value. -/
def Cell.subdivAux [Add α] [Div α] [OfNat α 2] (cond : Cell α → Bool)
    (max_depth : Nat) : Nat → Cell α → Cell α
  | 0, c => c
  | fuel + 1, c =>
    if max_depth ≤ c.level then c
    else
      Cell.mk c.level c.i c.j c.x0 c.x1 c.y0 c.y1
        (if cond (c.cell_0.getD c.cand0) then
          some (Cell.subdivAux cond max_depth fuel (c.cell_0.getD c.cand0))
         else c.cell_0)
        (if cond (c.cell_1.getD c.cand1) then
          some (Cell.subdivAux cond max_depth fuel (c.cell_1.getD c.cand1))
         else c.cell_1)
        (if cond (c.cell_2.getD c.cand2) then
          some (Cell.subdivAux cond max_depth fuel (c.cell_2.getD c.cand2))
         else c.cell_2)
        (if cond (c.cell_3.getD c.cand3) then
          some (Cell.subdivAux cond max_depth fuel (c.cell_3.getD c.cand3))
         else c.cell_3)

/-- Model of `WebMercatorCell.conditional_recursive_subdivide(condition, max_depth)`. -/
def Cell.conditional_recursive_subdivide [Add α] [Div α] [OfNat α 2]
    (c : Cell α) (cond : Cell α → Bool) (max_depth : Nat) : Cell α :=
  Cell.subdivAux cond max_depth (max_depth - c.level) c

/-- Model of `WebMercatorCell.full_recursive_subdivide(max_depth)`. -/
def Cell.full_recursive_subdivide [Add α] [Div α] [OfNat α 2]
    (c : Cell α) (max_depth : Nat) : Cell α :=
  c.conditional_recursive_subdivide (fun _ => true) max_depth

mutual

/-- Model of `WebMercatorCell.flatten()`: pre-order traversal, children in
`cell_0, cell_1, cell_2, cell_3` order. -/
def Cell.flatten : Cell α → List (Cell α)
  | .mk l i j a b c d s0 s1 s2 s3 =>
    Cell.mk l i j a b c d s0 s1 s2 s3 ::
      (Cell.flattenSlot s0 ++ Cell.flattenSlot s1 ++
       Cell.flattenSlot s2 ++ Cell.flattenSlot s3)

/-- Mirrors `if self.cell_k: l += self.cell_k.flatten()`. -/
def Cell.flattenSlot : Option (Cell α) → List (Cell α)
  | none => []
  | some d => d.flatten

end

theorem Cell.flatten_def (c : Cell α) :
    c.flatten = c :: (Cell.flattenSlot c.cell_0 ++ Cell.flattenSlot c.cell_1 ++
      Cell.flattenSlot c.cell_2 ++ Cell.flattenSlot c.cell_3) := by
  cases c; rfl

@[simp] theorem Cell.flattenSlot_none : (Cell.flattenSlot (none : Option (Cell α))) = [] := rfl
@[simp] theorem Cell.flattenSlot_some (d : Cell α) :
    Cell.flattenSlot (some d) = d.flatten := rfl

/-- The number of nodes of one level in the flattened tree. -/
def Cell.countOfLevel (L : Nat) (c : Cell α) : Nat :=
  c.flatten.countP fun d => d.level == L

/-- Model of `generate_webmercator_grid(refine_to_level)`: builds the level-0 root over
the full Mercator extent (via the projection round-trips of the source) and
fully subdivides it. -/
noncomputable def generate_webmercator_grid (refine_to_level : Nat) : Cell ℝ :=
  let x0 := (proj_mercator 0 (-180)).1
  let x1 := (proj_mercator 0 180).1
  let lat0 := (invert_mercator 0 x0).1
  let lat1 := (invert_mercator 0 x1).1
  let q0 := proj_mercator lat1 (-180)
  let q1 := proj_mercator lat0 180
  Cell.full_recursive_subdivide
    (Cell.mk 0 0 0 q0.1 q1.1 q0.2 q1.2 none none none none) refine_to_level

/-! ### C5: node counts of the fully subdivided grid -/

/-- Counting lemma for the unconditional subdivision of a childless cell:
with `fuel = max_depth - level`, the subdivided tree has
`(4 ^ (fuel + 1) - 1) / 3` nodes in total (stated multiplied by 3) and
`4 ^ fuel` nodes at the deepest level. -/
theorem subdivAux_full_counts [Add α] [Div α] [OfNat α 2] (max_depth : Nat) :
    ∀ (fuel : Nat) (c : Cell α), c.cell_0 = none → c.cell_1 = none →
      c.cell_2 = none → c.cell_3 = none → max_depth - c.level = fuel →
      3 * (Cell.subdivAux (fun _ => true) max_depth fuel c).flatten.length =
          4 ^ (fuel + 1) - 1 ∧
        (Cell.subdivAux (fun _ => true) max_depth fuel c).flatten.countP
            (fun d => d.level == c.level + fuel) = 4 ^ fuel := by
  intro fuel
  induction fuel with
  | zero =>
    intro c h0 h1 h2 h3 hfuel
    rw [Cell.subdivAux]
    rw [Cell.flatten_def, h0, h1, h2, h3]
    simp [List.countP_cons]
  | succ n ih =>
    intro c h0 h1 h2 h3 hfuel
    have hguard : ¬ max_depth ≤ c.level := by omega
    rw [Cell.subdivAux, if_neg hguard, h0, h1, h2, h3]
    simp only [Option.getD_none, if_pos]
    have hcand : ∀ d : Cell α, d = c.cand0 ∨ d = c.cand1 ∨ d = c.cand2 ∨ d = c.cand3 →
        d.cell_0 = none ∧ d.cell_1 = none ∧ d.cell_2 = none ∧ d.cell_3 = none ∧
          d.level = c.level + 1 := by
      rintro d (rfl | rfl | rfl | rfl) <;>
        simp [Cell.cand0, Cell.cand1, Cell.cand2, Cell.cand3]
    obtain ⟨h00, h01, h02, h03, hl0⟩ := hcand _ (Or.inl rfl)
    obtain ⟨h10, h11, h12, h13, hl1⟩ := hcand _ (Or.inr (Or.inl rfl))
    obtain ⟨h20, h21, h22, h23, hl2⟩ := hcand _ (Or.inr (Or.inr (Or.inl rfl)))
    obtain ⟨h30, h31, h32, h33, hl3⟩ := hcand _ (Or.inr (Or.inr (Or.inr rfl)))
    have ih0 := ih c.cand0 h00 h01 h02 h03 (by omega)
    have ih1 := ih c.cand1 h10 h11 h12 h13 (by omega)
    have ih2 := ih c.cand2 h20 h21 h22 h23 (by omega)
    have ih3 := ih c.cand3 h30 h31 h32 h33 (by omega)
    rw [Cell.flatten_def]
    simp only [Cell.cell_0_mk, Cell.cell_1_mk, Cell.cell_2_mk, Cell.cell_3_mk,
      Cell.flattenSlot_some, List.length_cons, List.length_append,
      List.countP_cons, List.countP_append]
    have hlevne : (c.level == c.level + (n + 1)) = false := by
      simp only [beq_eq_false_iff_ne]; omega
    simp only [Cell.level_mk, hlevne, Bool.false_eq_true, if_false]
    constructor
    · have hpow : 0 < 4 ^ (n + 1) := Nat.pos_pow_of_pos _ (by norm_num)
      have epow : (4 : Nat) ^ (n + 1 + 1) = 4 * 4 ^ (n + 1) := by
        rw [pow_succ]; ring
      omega
    · have harith : c.level + (n + 1) = c.level + 1 + n := by omega
      rw [harith]
      rw [hl0] at ih0
      rw [hl1] at ih1
      rw [hl2] at ih2
      rw [hl3] at ih3
      have epow : (4 : Nat) ^ (n + 1) = 4 * 4 ^ n := by rw [pow_succ]; ring
      omega

theorem full_subdivide_counts [Add α] [Div α] [OfNat α 2] (c : Cell α) (L : Nat)
    (h0 : c.cell_0 = none) (h1 : c.cell_1 = none) (h2 : c.cell_2 = none)
    (h3 : c.cell_3 = none) (hlev : c.level = 0) :
    Cell.countOfLevel L (c.full_recursive_subdivide L) = 4 ^ L ∧
      (c.full_recursive_subdivide L).flatten.length = (4 ^ (L + 1) - 1) / 3 := by
  have h := subdivAux_full_counts L L c h0 h1 h2 h3 (by omega)
  rw [hlev, Nat.zero_add] at h
  unfold Cell.full_recursive_subdivide Cell.conditional_recursive_subdivide
  rw [hlev, Nat.sub_zero]
  refine ⟨h.2, ?_⟩
  have hpow : 0 < 4 ^ (L + 1) := Nat.pos_pow_of_pos _ (by norm_num)
  have := h.1
  omega

/-- Claim C5.  The tree returned by `generate_webmercator_grid L` (full
subdivision of the level-0 root to depth `L`) has exactly `4 ^ L` nodes at
level `L`, and `flatten()` yields `(4 ^ (L + 1) - 1) / 3` nodes in total. -/
theorem webmercator_grid_counts (L : Nat) :
    Cell.countOfLevel L (generate_webmercator_grid L) = 4 ^ L ∧
      (generate_webmercator_grid L).flatten.length = (4 ^ (L + 1) - 1) / 3 :=
  full_subdivide_counts _ L rfl rfl rfl rfl rfl

/-! ### C8: structural invariant of subdivision -/

/-- Predicate: `d` is the quadrant child of `c` with horizontal/vertical offsets
`bi, bj ∈ {0, 1}`: address arithmetic `i' = 2i + bi`, `j' = 2j + bj`,
`level' = level + 1`, and the bounding box is exactly the corresponding
quadrant of the parent's box (split at the midpoints). -/
def isQuadrantOf [Add α] [Div α] [OfNat α 2] (d c : Cell α) (bi bj : Nat) : Prop :=
  d.level = c.level + 1 ∧ d.i = 2 * c.i + bi ∧ d.j = 2 * c.j + bj ∧
  d.x0 = (if bi = 0 then c.x0 else (c.x0 + c.x1) / 2) ∧
  d.x1 = (if bi = 0 then (c.x0 + c.x1) / 2 else c.x1) ∧
  d.y0 = (if bj = 0 then c.y0 else (c.y0 + c.y1) / 2) ∧
  d.y1 = (if bj = 0 then (c.y0 + c.y1) / 2 else c.y1)

/-- Every materialized child of every node is the corresponding quadrant
child. -/
inductive QuadInv [Add α] [Div α] [OfNat α 2] : Cell α → Prop where
  | intro (c : Cell α)
      (q0 : ∀ d, c.cell_0 = some d → isQuadrantOf d c 0 0)
      (q1 : ∀ d, c.cell_1 = some d → isQuadrantOf d c 1 0)
      (q2 : ∀ d, c.cell_2 = some d → isQuadrantOf d c 0 1)
      (q3 : ∀ d, c.cell_3 = some d → isQuadrantOf d c 1 1)
      (r0 : ∀ d, c.cell_0 = some d → QuadInv d)
      (r1 : ∀ d, c.cell_1 = some d → QuadInv d)
      (r2 : ∀ d, c.cell_2 = some d → QuadInv d)
      (r3 : ∀ d, c.cell_3 = some d → QuadInv d) :
      QuadInv c

/-- Every node of the tree satisfies the top-down convention `y1 < y0`. -/
inductive YDown [LT α] : Cell α → Prop where
  | intro (c : Cell α) (hy : c.y1 < c.y0)
      (r0 : ∀ d, c.cell_0 = some d → YDown d)
      (r1 : ∀ d, c.cell_1 = some d → YDown d)
      (r2 : ∀ d, c.cell_2 = some d → YDown d)
      (r3 : ∀ d, c.cell_3 = some d → YDown d) :
      YDown c

theorem quadInv_of_leaf [Add α] [Div α] [OfNat α 2] {c : Cell α}
    (h0 : c.cell_0 = none) (h1 : c.cell_1 = none) (h2 : c.cell_2 = none)
    (h3 : c.cell_3 = none) : QuadInv c := by
  refine QuadInv.intro c ?_ ?_ ?_ ?_ ?_ ?_ ?_ ?_ <;> intro d hd
  · rw [h0] at hd; exact Option.noConfusion hd
  · rw [h1] at hd; exact Option.noConfusion hd
  · rw [h2] at hd; exact Option.noConfusion hd
  · rw [h3] at hd; exact Option.noConfusion hd
  · rw [h0] at hd; exact Option.noConfusion hd
  · rw [h1] at hd; exact Option.noConfusion hd
  · rw [h2] at hd; exact Option.noConfusion hd
  · rw [h3] at hd; exact Option.noConfusion hd

theorem ydown_of_leaf [LT α] {c : Cell α} (hy : c.y1 < c.y0)
    (h0 : c.cell_0 = none) (h1 : c.cell_1 = none) (h2 : c.cell_2 = none)
    (h3 : c.cell_3 = none) : YDown c := by
  refine YDown.intro c hy ?_ ?_ ?_ ?_ <;> intro d hd
  · rw [h0] at hd; exact Option.noConfusion hd
  · rw [h1] at hd; exact Option.noConfusion hd
  · rw [h2] at hd; exact Option.noConfusion hd
  · rw [h3] at hd; exact Option.noConfusion hd

/-- Lemma: `subdivAux` never changes the node's own address or bounding box. -/
theorem subdivAux_core [Add α] [Div α] [OfNat α 2] (cond : Cell α → Bool)
    (max_depth fuel : Nat) (c : Cell α) :
    (Cell.subdivAux cond max_depth fuel c).level = c.level ∧
    (Cell.subdivAux cond max_depth fuel c).i = c.i ∧
    (Cell.subdivAux cond max_depth fuel c).j = c.j ∧
    (Cell.subdivAux cond max_depth fuel c).x0 = c.x0 ∧
    (Cell.subdivAux cond max_depth fuel c).x1 = c.x1 ∧
    (Cell.subdivAux cond max_depth fuel c).y0 = c.y0 ∧
    (Cell.subdivAux cond max_depth fuel c).y1 = c.y1 := by
  cases fuel with
  | zero => exact ⟨rfl, rfl, rfl, rfl, rfl, rfl, rfl⟩
  | succ n =>
    rw [Cell.subdivAux]
    by_cases hg : max_depth ≤ c.level
    · rw [if_pos hg]
      exact ⟨rfl, rfl, rfl, rfl, rfl, rfl, rfl⟩
    · rw [if_neg hg]
      simp

/-- The quadrant candidates satisfy `isQuadrantOf` by construction. -/
theorem cand_isQuadrantOf [Add α] [Div α] [OfNat α 2] (c : Cell α) :
    isQuadrantOf c.cand0 c 0 0 ∧ isQuadrantOf c.cand1 c 1 0 ∧
      isQuadrantOf c.cand2 c 0 1 ∧ isQuadrantOf c.cand3 c 1 1 := by
  refine ⟨?_, ?_, ?_, ?_⟩ <;>
    simp [isQuadrantOf, Cell.cand0, Cell.cand1, Cell.cand2, Cell.cand3]

theorem isQuadrantOf_congr_left [Add α] [Div α] [OfNat α 2] {d d' : Cell α}
    (c : Cell α) (bi bj : Nat)
    (hl : d'.level = d.level) (hi : d'.i = d.i) (hj : d'.j = d.j)
    (hx0 : d'.x0 = d.x0) (hx1 : d'.x1 = d.x1) (hy0 : d'.y0 = d.y0)
    (hy1 : d'.y1 = d.y1) (h : isQuadrantOf d c bi bj) :
    isQuadrantOf d' c bi bj := by
  rw [isQuadrantOf, hl, hi, hj, hx0, hx1, hy0, hy1]
  exact h

/-- Conditional subdivision preserves the quadrant-child invariant. -/
theorem quadInv_subdivAux [Add α] [Div α] [OfNat α 2] (cond : Cell α → Bool)
    (max_depth : Nat) :
    ∀ (fuel : Nat) (c : Cell α), QuadInv c →
      QuadInv (Cell.subdivAux cond max_depth fuel c) := by
  intro fuel
  induction fuel with
  | zero => intro c hc; exact hc
  | succ n ih =>
    intro c hc
    rcases hc with ⟨c, q0, q1, q2, q3, r0, r1, r2, r3⟩
    rw [Cell.subdivAux]
    by_cases hg : max_depth ≤ c.level
    · rw [if_pos hg]
      exact QuadInv.intro c q0 q1 q2 q3 r0 r1 r2 r3
    · rw [if_neg hg]
      have hquad := cand_isQuadrantOf c
      have slot : ∀ (sel : Cell α → Option (Cell α)) (cnd : Cell α → Cell α)
          (bi bj : Nat),
          (∀ d, sel c = some d → isQuadrantOf d c bi bj) →
          (∀ d, sel c = some d → QuadInv d) →
          isQuadrantOf (cnd c) c bi bj → QuadInv (cnd c) →
          ∀ d, (if cond ((sel c).getD (cnd c)) then
              some (Cell.subdivAux cond max_depth n ((sel c).getD (cnd c)))
            else sel c) = some d →
            isQuadrantOf d c bi bj ∧ QuadInv d := by
        intro sel cnd bi bj hselq hselr hcndq hcndr d hd
        by_cases hcond : cond ((sel c).getD (cnd c))
        · rw [if_pos hcond] at hd
          cases hd
          have hbase : isQuadrantOf ((sel c).getD (cnd c)) c bi bj ∧
              QuadInv ((sel c).getD (cnd c)) := by
            cases hs : sel c with
            | none => simp only [hs, Option.getD_none]; exact ⟨hcndq, hcndr⟩
            | some e => simp only [hs, Option.getD_some]; exact ⟨hselq e hs, hselr e hs⟩
          obtain ⟨e1, e2, e3, e4, e5, e6, e7⟩ :=
            subdivAux_core cond max_depth n ((sel c).getD (cnd c))
          exact ⟨isQuadrantOf_congr_left c bi bj e1 e2 e3 e4 e5 e6 e7 hbase.1,
            ih _ hbase.2⟩
        · rw [if_neg hcond] at hd
          exact ⟨hselq d hd, hselr d hd⟩
      have s0 := slot Cell.cell_0 Cell.cand0 0 0 q0 r0 hquad.1
        (quadInv_of_leaf rfl rfl rfl rfl)
      have s1 := slot Cell.cell_1 Cell.cand1 1 0 q1 r1 hquad.2.1
        (quadInv_of_leaf rfl rfl rfl rfl)
      have s2 := slot Cell.cell_2 Cell.cand2 0 1 q2 r2 hquad.2.2.1
        (quadInv_of_leaf rfl rfl rfl rfl)
      have s3 := slot Cell.cell_3 Cell.cand3 1 1 q3 r3 hquad.2.2.2
        (quadInv_of_leaf rfl rfl rfl rfl)
      refine QuadInv.intro _ ?_ ?_ ?_ ?_ ?_ ?_ ?_ ?_ <;> intro d hd
      · exact (s0 d hd).1
      · exact (s1 d hd).1
      · exact (s2 d hd).1
      · exact (s3 d hd).1
      · exact (s0 d hd).2
      · exact (s1 d hd).2
      · exact (s2 d hd).2
      · exact (s3 d hd).2

/-- Conditional subdivision preserves the top-down convention `y1 < y0`
everywhere in the tree (fresh children split `[y1, y0]` at the midpoint). -/
theorem ydown_subdivAux [LinearOrderedField α] (cond : Cell α → Bool)
    (max_depth : Nat) :
    ∀ (fuel : Nat) (c : Cell α), YDown c →
      YDown (Cell.subdivAux cond max_depth fuel c) := by
  intro fuel
  induction fuel with
  | zero => intro c hc; exact hc
  | succ n ih =>
    intro c hc
    rcases hc with ⟨c, hy, r0, r1, r2, r3⟩
    rw [Cell.subdivAux]
    by_cases hg : max_depth ≤ c.level
    · rw [if_pos hg]
      exact YDown.intro c hy r0 r1 r2 r3
    · rw [if_neg hg]
      have hcand : YDown c.cand0 ∧ YDown c.cand1 ∧ YDown c.cand2 ∧
          YDown c.cand3 := by
        refine ⟨?_, ?_, ?_, ?_⟩ <;>
          [exact ydown_of_leaf (c := c.cand0) (by simp [Cell.cand0]; linarith)
            rfl rfl rfl rfl;
           exact ydown_of_leaf (c := c.cand1) (by simp [Cell.cand1]; linarith)
            rfl rfl rfl rfl;
           exact ydown_of_leaf (c := c.cand2) (by simp [Cell.cand2]; linarith)
            rfl rfl rfl rfl;
           exact ydown_of_leaf (c := c.cand3) (by simp [Cell.cand3]; linarith)
            rfl rfl rfl rfl]
      have slot : ∀ (sel : Cell α → Option (Cell α)) (cnd : Cell α → Cell α),
          (∀ d, sel c = some d → YDown d) → YDown (cnd c) →
          ∀ d, (if cond ((sel c).getD (cnd c)) then
              some (Cell.subdivAux cond max_depth n ((sel c).getD (cnd c)))
            else sel c) = some d → YDown d := by
        intro sel cnd hselr hcndr d hd
        by_cases hcond : cond ((sel c).getD (cnd c))
        · rw [if_pos hcond] at hd
          cases hd
          have hbase : YDown ((sel c).getD (cnd c)) := by
            cases hs : sel c with
            | none => simp only [hs, Option.getD_none]; exact hcndr
            | some e => simp only [hs, Option.getD_some]; exact hselr e hs
          exact ih _ hbase
        · rw [if_neg hcond] at hd
          exact hselr d hd
      refine YDown.intro _ hy ?_ ?_ ?_ ?_ <;> intro d hd
      · exact slot Cell.cell_0 Cell.cand0 r0 hcand.1 d hd
      · exact slot Cell.cell_1 Cell.cand1 r1 hcand.2.1 d hd
      · exact slot Cell.cell_2 Cell.cand2 r2 hcand.2.2.1 d hd
      · exact slot Cell.cell_3 Cell.cand3 r3 hcand.2.2.2 d hd

theorem grid_extent_lt : (proj_mercator 0 (-180)).1 < (proj_mercator 0 180).1 := by
  show mercR * (-180) * Real.pi / 180 < mercR * 180 * Real.pi / 180
  have h1 := Real.pi_pos
  have h2 := mercR_pos
  nlinarith [mul_pos h2 h1]

/-- Claim C8.  Structural invariant of subdivision: every child attached by
`conditional_recursive_subdivide` is exactly one quadrant of its parent
(midpoint split of the bounding box, `i' = 2i + {0,1}`, `j' = 2j + {0,1}`,
`level' = level + 1`), and the top-down convention `y1 < y0` is preserved;
both invariants hold for the full `generate_webmercator_grid` tree. -/
theorem subdivision_structural_invariant :
    (∀ (cond : Cell ℝ → Bool) (max_depth : Nat) (c : Cell ℝ), QuadInv c →
        QuadInv (c.conditional_recursive_subdivide cond max_depth)) ∧
    (∀ (cond : Cell ℝ → Bool) (max_depth : Nat) (c : Cell ℝ), YDown c →
        YDown (c.conditional_recursive_subdivide cond max_depth)) ∧
    (∀ L : Nat, QuadInv (generate_webmercator_grid L) ∧
        YDown (generate_webmercator_grid L)) := by
  refine ⟨fun cond maxD c hc => quadInv_subdivAux cond maxD _ c hc,
    fun cond maxD c hc => ydown_subdivAux cond maxD _ c hc, fun L => ⟨?_, ?_⟩⟩
  · exact quadInv_subdivAux _ _ _ _ (quadInv_of_leaf rfl rfl rfl rfl)
  · refine ydown_subdivAux _ _ _ _ (ydown_of_leaf ?_ rfl rfl rfl rfl)
    show (proj_mercator ((invert_mercator 0 ((proj_mercator 0 (-180)).1)).1) 180).2 <
      (proj_mercator ((invert_mercator 0 ((proj_mercator 0 180).1)).1) (-180)).2
    rw [proj_invert_y, proj_invert_y]
    exact grid_extent_lt

/-- A concrete childless level-0 cell, used to instantiate the theorems at a
specific input. -/
noncomputable def demoCell : Cell ℝ :=
  Cell.mk 0 0 0 0 1 1 0 none none none none

theorem subdivision_structural_invariant_witness :
    QuadInv (demoCell.conditional_recursive_subdivide (fun _ => true) 1) :=
  subdivision_structural_invariant.1 (fun _ => true) 1 demoCell
    (quadInv_of_leaf rfl rfl rfl rfl)

/-! ### C3: behaviour of `conditional_recursive_subdivide` -/

/-- Claim C3, counterexample.  The claim says subdivision below `maxDepth`
*creates all four quadrant children* and only the recursion is guarded by
`condition`.  In the code the assignment `self.__setattr__(cell_key, cell)`
itself is guarded by `condition(cell)`: on a childless level-0 cell with an
always-false condition and `max_depth = 1`, no child is created at all — the
node is returned unchanged with all four slots absent. -/
theorem conditional_subdivide_no_child_counterexample :
    demoCell.level < 1 ∧
    demoCell.conditional_recursive_subdivide (fun _ => false) 1 = demoCell ∧
    (demoCell.conditional_recursive_subdivide (fun _ => false) 1).cell_0 = none ∧
    (demoCell.conditional_recursive_subdivide (fun _ => false) 1).cell_1 = none ∧
    (demoCell.conditional_recursive_subdivide (fun _ => false) 1).cell_2 = none ∧
    (demoCell.conditional_recursive_subdivide (fun _ => false) 1).cell_3 = none :=
  ⟨Nat.zero_lt_one, rfl, rfl, rfl, rfl, rfl⟩

/-- Claim C3, amended.  A node at level ≥ `max_depth` never subdivides,
regardless of the condition.  For a node strictly below `max_depth` (whose
materialized children, if any, sit at `level + 1`), each child slot becomes
the recursively subdivided candidate `cell = getattr(...) or WebMercatorCell(...)`
*only if* `condition(candidate)` holds, and keeps its previous value (absent
children remain absent) otherwise; the node's own address is unchanged. -/
theorem conditional_subdivide_behaviour (cond : Cell ℝ → Bool) (max_depth : Nat)
    (c : Cell ℝ) :
    (max_depth ≤ c.level → c.conditional_recursive_subdivide cond max_depth = c) ∧
    (c.level < max_depth →
      (∀ d, c.cell_0 = some d → d.level = c.level + 1) →
      (∀ d, c.cell_1 = some d → d.level = c.level + 1) →
      (∀ d, c.cell_2 = some d → d.level = c.level + 1) →
      (∀ d, c.cell_3 = some d → d.level = c.level + 1) →
      (c.conditional_recursive_subdivide cond max_depth).cell_0 =
          (if cond (c.cell_0.getD c.cand0) then
            some ((c.cell_0.getD c.cand0).conditional_recursive_subdivide cond max_depth)
          else c.cell_0) ∧
      (c.conditional_recursive_subdivide cond max_depth).cell_1 =
          (if cond (c.cell_1.getD c.cand1) then
            some ((c.cell_1.getD c.cand1).conditional_recursive_subdivide cond max_depth)
          else c.cell_1) ∧
      (c.conditional_recursive_subdivide cond max_depth).cell_2 =
          (if cond (c.cell_2.getD c.cand2) then
            some ((c.cell_2.getD c.cand2).conditional_recursive_subdivide cond max_depth)
          else c.cell_2) ∧
      (c.conditional_recursive_subdivide cond max_depth).cell_3 =
          (if cond (c.cell_3.getD c.cand3) then
            some ((c.cell_3.getD c.cand3).conditional_recursive_subdivide cond max_depth)
          else c.cell_3) ∧
      (c.conditional_recursive_subdivide cond max_depth).level = c.level ∧
      (c.conditional_recursive_subdivide cond max_depth).i = c.i ∧
      (c.conditional_recursive_subdivide cond max_depth).j = c.j) := by
  constructor
  · intro h
    unfold Cell.conditional_recursive_subdivide
    rw [Nat.sub_eq_zero_of_le h, Cell.subdivAux]
  · intro h h0 h1 h2 h3
    have hd0 : (c.cell_0.getD c.cand0).level = c.level + 1 := by
      cases hs : c.cell_0 with
      | none => simp [Cell.cand0]
      | some e => simp only [hs, Option.getD_some]; exact h0 e hs
    have hd1 : (c.cell_1.getD c.cand1).level = c.level + 1 := by
      cases hs : c.cell_1 with
      | none => simp [Cell.cand1]
      | some e => simp only [hs, Option.getD_some]; exact h1 e hs
    have hd2 : (c.cell_2.getD c.cand2).level = c.level + 1 := by
      cases hs : c.cell_2 with
      | none => simp [Cell.cand2]
      | some e => simp only [hs, Option.getD_some]; exact h2 e hs
    have hd3 : (c.cell_3.getD c.cand3).level = c.level + 1 := by
      cases hs : c.cell_3 with
      | none => simp [Cell.cand3]
      | some e => simp only [hs, Option.getD_some]; exact h3 e hs
    unfold Cell.conditional_recursive_subdivide
    rw [hd0, hd1, hd2, hd3]
    have hfuel : max_depth - c.level = (max_depth - (c.level + 1)) + 1 := by omega
    rw [hfuel, Cell.subdivAux, if_neg (by omega : ¬ max_depth ≤ c.level)]
    exact ⟨rfl, rfl, rfl, rfl, rfl, rfl, rfl⟩

theorem conditional_subdivide_behaviour_witness :
    demoCell.level < 1 ∧
    (demoCell.conditional_recursive_subdivide (fun _ => true) 1).cell_0 =
      some ((demoCell.cell_0.getD demoCell.cand0).conditional_recursive_subdivide
        (fun _ => true) 1) :=
  ⟨Nat.zero_lt_one,
    ((conditional_subdivide_behaviour (fun _ => true) 1 demoCell).2
      Nat.zero_lt_one
      (fun _ hd => Option.noConfusion hd) (fun _ hd => Option.noConfusion hd)
      (fun _ hd => Option.noConfusion hd) (fun _ hd => Option.noConfusion hd)).1⟩

/-! ### The merge engine (`generate.py`)

`_get_heightdata(tile_directory, level, i, j)` wraps the column index `i`
horizontally (`i < 0 -> maxindex + i`; `i >= maxindex -> i - maxindex`, with
`maxindex = 2**level`), never the row index `j`, then loads
`{level}/{i}/{j}.hgt.pgm`; if the file does not exist it returns
`np.zeros((128, 128))`.  The on-disk thumbnail store is abstracted as
`store : Nat → ℤ → ℤ → Option (Nat → Nat → α)` (`none` = file absent); height
samples have any type with a zero. -/

/-- The horizontal wrap of the column index in `_get_heightdata`. -/
def wrapIndex (level : Nat) (i : ℤ) : ℤ :=
  if i < 0 then 2 ^ level + i
  else if (2 : ℤ) ^ level ≤ i then i - 2 ^ level
  else i

/-- Model of `_get_heightdata`: wrapped-column lookup with the all-zero 128×128 grid as
the default for absent thumbnails. -/
def get_heightdata [Zero α] (store : Nat → ℤ → ℤ → Option (Nat → Nat → α))
    (level : Nat) (i j : ℤ) : Nat → Nat → α :=
  (store level (wrapIndex level i) j).getD fun _ _ => 0

/-- The padded merge buffer of `_generate_merged_cell_from_subcells` for the
tile `(level, ci, cj)`, as a function of buffer row `r` and column `c`
(`r, c < 256 + 2*8 = 272`).  The numpy code zero-fills a `(256+16)×(256+16)`
buffer and then overwrites it with 16 pairwise disjoint slice assignments that
together cover it; the value at `(r, c)` is therefore given by this case
analysis (`lvl = level + 1`, `i0 = 2*ci`, `j0 = 2*cj`, `margin = 8`; a slice
`[-8:]` of a 128-row thumbnail starts at row 120):
```
data[8:136,   8:136]   = ghd(lvl, i0,   j0  )          # core quadrants
data[8:136,   136:264] = ghd(lvl, i0+1, j0  )
data[136:264, 8:136]   = ghd(lvl, i0,   j0+1)
data[136:264, 136:264] = ghd(lvl, i0+1, j0+1)
data[:8,   :8]      = ghd(lvl, i0-1, j0-1)[-8:, -8:]   # the 12 border strips
data[:8,   8:136]   = ghd(lvl, i0,   j0-1)[-8:, :]
data[:8,   136:264] = ghd(lvl, i0+1, j0-1)[-8:, :]
data[:8,   264:]    = ghd(lvl, i0+2, j0-1)[-8:, :8]
data[8:136,   :8]   = ghd(lvl, i0-1, j0  )[:,   -8:]
data[8:136,   264:] = ghd(lvl, i0+2, j0  )[:,   :8]
data[136:264, :8]   = ghd(lvl, i0-1, j0+1)[:,   -8:]
data[136:264, 264:] = ghd(lvl, i0+2, j0+1)[:,   :8]
data[264:, :8]      = ghd(lvl, i0-1, j0+2)[:8,  -8:]
data[264:, 8:136]   = ghd(lvl, i0,   j0+2)[:8,  :]
data[264:, 136:264] = ghd(lvl, i0+1, j0+2)[:8,  :]
data[264:, 264:]    = ghd(lvl, i0+2, j0+2)[:8,  :8]
```
-/
def generate_merged_cell_from_subcells [Zero α]
    (store : Nat → ℤ → ℤ → Option (Nat → Nat → α)) (level : Nat) (ci cj : Nat)
    (r c : Nat) : α :=
  if r < 8 then
    if c < 8 then
      get_heightdata store (level + 1) (2 * ci - 1) (2 * cj - 1) (120 + r) (120 + c)
    else if c < 136 then
      get_heightdata store (level + 1) (2 * ci) (2 * cj - 1) (120 + r) (c - 8)
    else if c < 264 then
      get_heightdata store (level + 1) (2 * ci + 1) (2 * cj - 1) (120 + r) (c - 136)
    else
      get_heightdata store (level + 1) (2 * ci + 2) (2 * cj - 1) (120 + r) (c - 264)
  else if r < 136 then
    if c < 8 then
      get_heightdata store (level + 1) (2 * ci - 1) (2 * cj) (r - 8) (120 + c)
    else if c < 136 then
      get_heightdata store (level + 1) (2 * ci) (2 * cj) (r - 8) (c - 8)
    else if c < 264 then
      get_heightdata store (level + 1) (2 * ci + 1) (2 * cj) (r - 8) (c - 136)
    else
      get_heightdata store (level + 1) (2 * ci + 2) (2 * cj) (r - 8) (c - 264)
  else if r < 264 then
    if c < 8 then
      get_heightdata store (level + 1) (2 * ci - 1) (2 * cj + 1) (r - 136) (120 + c)
    else if c < 136 then
      get_heightdata store (level + 1) (2 * ci) (2 * cj + 1) (r - 136) (c - 8)
    else if c < 264 then
      get_heightdata store (level + 1) (2 * ci + 1) (2 * cj + 1) (r - 136) (c - 136)
    else
      get_heightdata store (level + 1) (2 * ci + 2) (2 * cj + 1) (r - 136) (c - 264)
  else
    if c < 8 then
      get_heightdata store (level + 1) (2 * ci - 1) (2 * cj + 2) (r - 264) (120 + c)
    else if c < 136 then
      get_heightdata store (level + 1) (2 * ci) (2 * cj + 2) (r - 264) (c - 8)
    else if c < 264 then
      get_heightdata store (level + 1) (2 * ci + 1) (2 * cj + 2) (r - 264) (c - 136)
    else
      get_heightdata store (level + 1) (2 * ci + 2) (2 * cj + 2) (r - 264) (c - 264)

/-- The thumbnail for address `(lvl, i, j)` is absent from disk — the
file-existence check of `_get_heightdata` happens after the horizontal wrap. -/
def thumbnailAbsent [Zero α] (store : Nat → ℤ → ℤ → Option (Nat → Nat → α))
    (lvl : Nat) (i j : ℤ) : Prop :=
  store lvl (wrapIndex lvl i) j = none

theorem get_heightdata_absent [Zero α]
    {store : Nat → ℤ → ℤ → Option (Nat → Nat → α)} {lvl : Nat} {i j : ℤ}
    (h : thumbnailAbsent store lvl i j) :
    get_heightdata store lvl i j = fun _ _ => 0 := by
  rw [get_heightdata, h, Option.getD_none]

/-- Claim C2.  In the pyramid merge for tile `(level, ci, cj)`, every border
strip of the padded `(256+16)×(256+16)` buffer whose source thumbnail at
`level + 1` is absent — including neighbours past the wrap-around edges, since
absence is checked after the horizontal wrap — is all zero.  One implication
per placed border slice (the 8 neighbour directions touch 12 thumbnails at
`level + 1`). -/
theorem merged_missing_neighbors_zero [Zero α]
    (store : Nat → ℤ → ℤ → Option (Nat → Nat → α)) (level ci cj : Nat) :
    (∀ r c, r < 8 → c < 8 →
      thumbnailAbsent store (level + 1) (2 * ci - 1) (2 * cj - 1) →
      generate_merged_cell_from_subcells store level ci cj r c = 0) ∧
    (∀ r c, r < 8 → 8 ≤ c → c < 136 →
      thumbnailAbsent store (level + 1) (2 * ci) (2 * cj - 1) →
      generate_merged_cell_from_subcells store level ci cj r c = 0) ∧
    (∀ r c, r < 8 → 136 ≤ c → c < 264 →
      thumbnailAbsent store (level + 1) (2 * ci + 1) (2 * cj - 1) →
      generate_merged_cell_from_subcells store level ci cj r c = 0) ∧
    (∀ r c, r < 8 → 264 ≤ c → c < 272 →
      thumbnailAbsent store (level + 1) (2 * ci + 2) (2 * cj - 1) →
      generate_merged_cell_from_subcells store level ci cj r c = 0) ∧
    (∀ r c, 8 ≤ r → r < 136 → c < 8 →
      thumbnailAbsent store (level + 1) (2 * ci - 1) (2 * cj) →
      generate_merged_cell_from_subcells store level ci cj r c = 0) ∧
    (∀ r c, 8 ≤ r → r < 136 → 264 ≤ c → c < 272 →
      thumbnailAbsent store (level + 1) (2 * ci + 2) (2 * cj) →
      generate_merged_cell_from_subcells store level ci cj r c = 0) ∧
    (∀ r c, 136 ≤ r → r < 264 → c < 8 →
      thumbnailAbsent store (level + 1) (2 * ci - 1) (2 * cj + 1) →
      generate_merged_cell_from_subcells store level ci cj r c = 0) ∧
    (∀ r c, 136 ≤ r → r < 264 → 264 ≤ c → c < 272 →
      thumbnailAbsent store (level + 1) (2 * ci + 2) (2 * cj + 1) →
      generate_merged_cell_from_subcells store level ci cj r c = 0) ∧
    (∀ r c, 264 ≤ r → r < 272 → c < 8 →
      thumbnailAbsent store (level + 1) (2 * ci - 1) (2 * cj + 2) →
      generate_merged_cell_from_subcells store level ci cj r c = 0) ∧
    (∀ r c, 264 ≤ r → r < 272 → 8 ≤ c → c < 136 →
      thumbnailAbsent store (level + 1) (2 * ci) (2 * cj + 2) →
      generate_merged_cell_from_subcells store level ci cj r c = 0) ∧
    (∀ r c, 264 ≤ r → r < 272 → 136 ≤ c → c < 264 →
      thumbnailAbsent store (level + 1) (2 * ci + 1) (2 * cj + 2) →
      generate_merged_cell_from_subcells store level ci cj r c = 0) ∧
    (∀ r c, 264 ≤ r → r < 272 → 264 ≤ c → c < 272 →
      thumbnailAbsent store (level + 1) (2 * ci + 2) (2 * cj + 2) →
      generate_merged_cell_from_subcells store level ci cj r c = 0) := by
  refine ⟨?_, ?_, ?_, ?_, ?_, ?_, ?_, ?_, ?_, ?_, ?_, ?_⟩
  · intro r c h1 h2 habs
    unfold generate_merged_cell_from_subcells
    rw [if_pos h1, if_pos h2, get_heightdata_absent habs]
  · intro r c h1 h2 h3 habs
    unfold generate_merged_cell_from_subcells
    rw [if_pos h1, if_neg (show ¬ c < 8 by omega), if_pos h3,
      get_heightdata_absent habs]
  · intro r c h1 h2 h3 habs
    unfold generate_merged_cell_from_subcells
    rw [if_pos h1, if_neg (show ¬ c < 8 by omega),
      if_neg (show ¬ c < 136 by omega), if_pos h3, get_heightdata_absent habs]
  · intro r c h1 h2 _ habs
    unfold generate_merged_cell_from_subcells
    rw [if_pos h1, if_neg (show ¬ c < 8 by omega),
      if_neg (show ¬ c < 136 by omega), if_neg (show ¬ c < 264 by omega),
      get_heightdata_absent habs]
  · intro r c h1 h2 h3 habs
    unfold generate_merged_cell_from_subcells
    rw [if_neg (show ¬ r < 8 by omega), if_pos h2, if_pos h3,
      get_heightdata_absent habs]
  · intro r c h1 h2 h3 _ habs
    unfold generate_merged_cell_from_subcells
    rw [if_neg (show ¬ r < 8 by omega), if_pos h2,
      if_neg (show ¬ c < 8 by omega), if_neg (show ¬ c < 136 by omega),
      if_neg (show ¬ c < 264 by omega), get_heightdata_absent habs]
  · intro r c h1 h2 h3 habs
    unfold generate_merged_cell_from_subcells
    rw [if_neg (show ¬ r < 8 by omega), if_neg (show ¬ r < 136 by omega),
      if_pos h2, if_pos h3, get_heightdata_absent habs]
  · intro r c h1 h2 h3 _ habs
    unfold generate_merged_cell_from_subcells
    rw [if_neg (show ¬ r < 8 by omega), if_neg (show ¬ r < 136 by omega),
      if_pos h2, if_neg (show ¬ c < 8 by omega),
      if_neg (show ¬ c < 136 by omega), if_neg (show ¬ c < 264 by omega),
      get_heightdata_absent habs]
  · intro r c h1 _ h3 habs
    unfold generate_merged_cell_from_subcells
    rw [if_neg (show ¬ r < 8 by omega), if_neg (show ¬ r < 136 by omega),
      if_neg (show ¬ r < 264 by omega), if_pos h3, get_heightdata_absent habs]
  · intro r c h1 _ h3 h4 habs
    unfold generate_merged_cell_from_subcells
    rw [if_neg (show ¬ r < 8 by omega), if_neg (show ¬ r < 136 by omega),
      if_neg (show ¬ r < 264 by omega), if_neg (show ¬ c < 8 by omega),
      if_pos h4, get_heightdata_absent habs]
  · intro r c h1 _ h3 h4 habs
    unfold generate_merged_cell_from_subcells
    rw [if_neg (show ¬ r < 8 by omega), if_neg (show ¬ r < 136 by omega),
      if_neg (show ¬ r < 264 by omega), if_neg (show ¬ c < 8 by omega),
      if_neg (show ¬ c < 136 by omega), if_pos h4, get_heightdata_absent habs]
  · intro r c h1 _ h3 _ habs
    unfold generate_merged_cell_from_subcells
    rw [if_neg (show ¬ r < 8 by omega), if_neg (show ¬ r < 136 by omega),
      if_neg (show ¬ r < 264 by omega), if_neg (show ¬ c < 8 by omega),
      if_neg (show ¬ c < 136 by omega), if_neg (show ¬ c < 264 by omega),
      get_heightdata_absent habs]

theorem merged_missing_neighbors_zero_witness :
    generate_merged_cell_from_subcells (α := ℤ) (fun _ _ _ => none) 0 0 0 0 0 = 0 :=
  (merged_missing_neighbors_zero (fun _ _ _ => none) 0 0 0).1 0 0
    (by decide) (by decide) rfl

/-- Claim C10.  The lookup `_get_heightdata` wraps the column index only: a request at
`i = -1` reads the thumbnail of tile `(L, 2^L - 1, j)` and a request at
`i = 2^L` reads tile `(L, 0, j)` (the row index `j` is passed through
unchanged in every case), and any address whose thumbnail is absent after
wrapping yields the all-zero grid instead of failing. -/
theorem heightdata_wrap_behaviour [Zero α]
    (store : Nat → ℤ → ℤ → Option (Nat → Nat → α)) (L : Nat) (j : ℤ) :
    (∀ i : ℤ, get_heightdata store L i j =
        (store L (wrapIndex L i) j).getD fun _ _ => 0) ∧
    (get_heightdata store L (-1) j = (store L (2 ^ L - 1) j).getD fun _ _ => 0) ∧
    (get_heightdata store L (2 ^ L) j = (store L 0 j).getD fun _ _ => 0) ∧
    (∀ i : ℤ, store L (wrapIndex L i) j = none →
        get_heightdata store L i j = fun _ _ => 0) := by
  refine ⟨fun i => rfl, ?_, ?_, fun i h => get_heightdata_absent h⟩
  · have hw : wrapIndex L (-1) = 2 ^ L - 1 := by
      rw [wrapIndex, if_pos (show (-1 : ℤ) < 0 by norm_num)]
      ring
    rw [get_heightdata, hw]
  · have hw : wrapIndex L ((2 : ℤ) ^ L) = 0 := by
      rw [wrapIndex, if_neg (not_lt.mpr (by positivity)), if_pos (le_refl _),
        sub_self]
    rw [get_heightdata, hw]

theorem heightdata_wrap_behaviour_witness :
    get_heightdata (α := ℤ) (fun _ _ _ => none) 2 (-1) 5 = fun _ _ => 0 :=
  (heightdata_wrap_behaviour (fun _ _ _ => none) 2 5).2.2.2 (-1) rfl

/-! ### The hillshade tone transform (`imagetools.py`)

```
hillshade = es.hillshade(data, azimuth=HILLSHADE_AZIMUTH)
out_array = np.asarray(hillshade, OUT_DTYPE)      # uint8
out_array = 255 - ((255 - out_array) // 3)        # lighten
return Image.fromarray(out_array, mode='L')
```
The `earthpy` hillshade kernel is an external collaborator; its per-pixel
output is abstracted as `shade` (nonnegative integral values, in `[0, 255]` by
the hillshade formula).  The uint8 cast is `% 256`; the lighten step is exact
`uint8` arithmetic since `0 ≤ (255 - v) // 3 ≤ 85` never wraps. -/

/-- The per-pixel luminance produced by `to_hillshade`. -/
def to_hillshade (shade : Nat → Nat → Nat) (r c : Nat) : Nat :=
  255 - (255 - shade r c % 256) / 3

/-- Claim C9.  The hillshade renderer applies `out = 255 - (255 - out) / 3`
elementwise to the 8-bit hillshade values: for every raw hillshade value
`v = shade r c` in `[0, 255]`, the output luminance is exactly
`255 - (255 - v) / 3` (integer division), which in particular compresses the
output into `[170, 255]`. -/
theorem hillshade_tone_transform (shade : Nat → Nat → Nat) (r c : Nat)
    (h : shade r c ≤ 255) :
    to_hillshade shade r c = 255 - (255 - shade r c) / 3 ∧
      170 ≤ to_hillshade shade r c ∧ to_hillshade shade r c ≤ 255 := by
  unfold to_hillshade
  have hm : shade r c % 256 = shade r c := Nat.mod_eq_of_lt (by omega)
  rw [hm]
  omega

theorem hillshade_tone_transform_witness :
    to_hillshade (fun _ _ => 0) 0 0 = 255 - (255 - 0) / 3 ∧
      170 ≤ to_hillshade (fun _ _ => 0) 0 0 ∧
      to_hillshade (fun _ _ => 0) 0 0 ≤ 255 :=
  hillshade_tone_transform (fun _ _ => 0) 0 0 (by decide)

end GenTiles
